import Mathlib

/-!
Shallow embedding of the QPLEX variational-optimization engine, together
with theorems checking the natural-language specification against it.

The definitions in the `QPLEX` namespace are translated from the Python
sources:
  * `qplex/utils/model_utils.py`        (constraint inspector)
  * `qplex/algorithms/mixers/*.py`      (mixer library and factory)
  * `qplex/utils/circuit_utils.py`      (parameter substitution)
  * `qplex/algorithms/qaoa.py`          (QAOA circuit compiler)
  * `qplex/algorithms/vqe.py`           (VQE circuit compiler)
  * `qplex/commons/workflow_utils.py`   (result extraction, energy)
  * `qplex/solvers/dwave_solver.py`     (annealing adapter translation)

Modelling conventions:
  * Python numbers are embedded as `ℚ` (the code only ever adds,
    multiplies, divides by 2 and compares them).
  * Python dicts keyed by strings are embedded as association lists in
    insertion order, with key overwrite on repeated insertion
    (`dictInsert`), which is exactly CPython dict semantics.
  * Python's `str(float)` rendering of a parameter value is abstracted:
    parameter vectors are embedded as lists of already-rendered strings.
  * Python sets of enum members are embedded as insertion-ordered
    duplicate-free lists; the only set operations used by the code are
    `add`, `len`, `pop` of a singleton and `list(...)`.
-/

namespace QPLEX

/-- ConstraintType enum from `qplex/model/constants.py` (the identical
enum is re-declared in `mixer_factory.py`; the code only ever compares
members through `.value`, so one Lean type stands for both). -/
inductive ConstraintType where
  | unconstrained
  | cardinality
  | partition
  | inequality
  | multiple
deriving DecidableEq, Repr

/-- ComparisonType from `docplex.mp.constants` (LE / EQ / GE). -/
inductive ComparisonType where
  | le
  | eq
  | ge
deriving DecidableEq, Repr

/-- Variable kinds of the modelling front-end (docplex `cplex_typecode`
'B' / 'I' / 'C'). -/
inductive VarType where
  | binary
  | integer
  | continuous
deriving DecidableEq, Repr

/-- A model variable: name, kind and bounds. -/
structure Var where
  name : String
  vtype : VarType
  lb : ℚ
  ub : ℚ
deriving DecidableEq, Repr

/-- One linear term `coef * var` of a constraint's left expression, as
yielded by docplex `iter_terms()`. -/
structure LinTerm where
  var : Var
  coef : ℚ
deriving DecidableEq, Repr

/-- The right side of a constraint as seen through `get_right_expr()`:
either a plain Python number (so `isinstance(rhs, (int, float))` is
true) or some non-numeric expression object. -/
inductive RightExpr where
  | num (q : ℚ)
  | expr
deriving DecidableEq, Repr

/-- Python `isinstance(rhs, (int, float))`. -/
def RightExpr.isNum : RightExpr → Bool
  | .num _ => true
  | .expr => false

/-- Python `rhs == 0` for a right expression (true exactly for the
number 0; comparing a non-numeric expression object with 0 is falsy in
the boolean position the inspector uses it in). -/
def RightExpr.eqZero : RightExpr → Bool
  | .num q => q = 0
  | .expr => false

/-- A linear constraint as consumed by the inspector and the annealing
adapter: comparison sense, left linear terms, right expression, label. -/
structure Constraint where
  sense : ComparisonType
  lhs : List LinTerm
  rhs : RightExpr
  label : String
deriving DecidableEq, Repr

/-- Objective sense of a model. -/
inductive Sense where
  | minimize
  | maximize
deriving DecidableEq, Repr

/-- The slice of a docplex `Model` that the embedded code reads:
variables in declaration order, constraints, the objective's linear
terms and quadratic triplets, and the sense. -/
structure PModel where
  vars : List Var
  constraints : List Constraint
  objLinear : List (String × ℚ)
  objQuad : List (String × String × ℚ)
  sense : Sense
deriving DecidableEq, Repr

/-- CPython dict insertion: overwrite the value in place when the key is
present, otherwise append at the end (insertion order preserved). -/
def dictInsert {κ α : Type} [DecidableEq κ] (d : List (κ × α)) (k : κ)
    (v : α) : List (κ × α) :=
  match d with
  | [] => [(k, v)]
  | p :: ps => if p.1 = k then (k, v) :: ps else p :: dictInsert ps k v

/-- Python `d[k]` lookup (first, hence only, binding of the key). -/
def dictGet {κ α : Type} [DecidableEq κ] (d : List (κ × α)) (k : κ) :
    Option α :=
  match d with
  | [] => none
  | p :: ps => if p.1 = k then some p.2 else dictGet ps k

/-- Key membership test, Python `k in d`. -/
def dictHasKey {κ α : Type} [DecidableEq κ] (d : List (κ × α)) (k : κ) :
    Bool :=
  (dictGet d k).isSome

/-- Values stored in the inspector's `parameters` dict. -/
inductive ParamValue where
  | rexpr (r : RightExpr)
  | bounds (l : List (ComparisonType × RightExpr))
  | ctypes (l : List ConstraintType)
deriving DecidableEq, Repr

/-- ConstraintInfo dataclass from `qplex/utils/model_utils.py`.  A
Python value of `None` for `parameters` is embedded as `[]` (the code
only ever tests the field for truthiness and key membership, on which
`None` and `{}` agree). -/
structure ConstraintInfo where
  type : Option ConstraintType
  parameters : List (String × ParamValue)
  additional_constraints : Option (List ConstraintType)
deriving DecidableEq, Repr

/-- Helper `get_coefficients` of `get_model_constraint_info`: the dict
`{var.name: coef for var, coef in lhs.iter_terms()}`. -/
def get_coefficients (c : Constraint) : List (String × ℚ) :=
  c.lhs.foldl (fun d t => dictInsert d t.var.name t.coef) []

/-- Helper `get_unique_coefs`: the set of left-hand coefficients, as a
finset. -/
def get_unique_coefs (c : Constraint) : Finset ℚ :=
  (c.lhs.map (fun t => t.coef)).toFinset

/-- Predicate of the `cardinality_constraints` comprehension: equality
sense, every coefficient of the coefficient dict equal to 1, and a
numeric right side. -/
def isCardinalityConst (c : Constraint) : Bool :=
  c.sense = ComparisonType.eq &&
    (get_coefficients c).all (fun p => p.2 = 1) && c.rhs.isNum

/-- Predicate of the `partition_constraints` comprehension: equality
sense, right side equal to 0, and coefficient set exactly {1, -1}. -/
def isPartitionConst (c : Constraint) : Bool :=
  c.sense = ComparisonType.eq && c.rhs.eqZero &&
    get_unique_coefs c = ({1, -1} : Finset ℚ)

/-- Predicate of the `inequality_constraints` comprehension: LE or GE
sense and not all coefficients equal to 1. -/
def isInequalityConst (c : Constraint) : Bool :=
  (c.sense = ComparisonType.le || c.sense = ComparisonType.ge) &&
    !((get_coefficients c).all (fun p => p.2 = 1))

/-- Inspector `get_model_constraint_info` from
`qplex/utils/model_utils.py`.  `detected_constraints` is a set that
receives at most one copy of each member, added in the order
cardinality, partition, inequality; it is embedded as the
insertion-ordered list.  (For a singleton set, `set.pop()` returns its
sole member; for `list(set)` of several members CPython iterates in
hash order, which no downstream code depends on — the factory only
looks at `ConstraintInfo.type` — so insertion order is used.) -/
def get_model_constraint_info (model : PModel) : ConstraintInfo :=
  let constraints := model.constraints
  let cardinality_constraints := constraints.filter isCardinalityConst
  let partition_constraints := constraints.filter isPartitionConst
  let inequality_constraints := constraints.filter isInequalityConst
  let detected : List ConstraintType :=
    (if cardinality_constraints ≠ [] then [ConstraintType.cardinality] else [])
      ++ (if partition_constraints ≠ [] then [ConstraintType.partition] else [])
      ++ (if inequality_constraints ≠ [] then [ConstraintType.inequality] else [])
  let parameters : List (String × ParamValue) :=
    (match cardinality_constraints with
     | c :: _ => [("cardinality_k", ParamValue.rexpr c.rhs)]
     | [] => [])
      ++ (if inequality_constraints ≠ [] then
            [("inequality_bounds",
              ParamValue.bounds
                (inequality_constraints.map (fun c => (c.sense, c.rhs))))]
          else [])
  if detected.length > 1 then
    { type := some ConstraintType.multiple
      parameters := parameters
      additional_constraints := some detected }
  else
    match detected with
    | [t] => { type := some t, parameters := parameters
               additional_constraints := none }
    | _ => { type := some ConstraintType.unconstrained, parameters := []
             additional_constraints := none }

/-! Mixer library, `qplex/algorithms/mixers/`.  Every mixer's
`generate_circuit(n_qubits, theta)` returns a list of OpenQASM3 lines;
Python f-strings are embedded as string concatenation. -/

/-- Mixers the factory can produce: the four base mixers
(`_get_mixer_for_type` only ever returns these) or a composite of base
mixers (`_create_composite_mixer` only ever composes base mixers). -/
inductive BaseMixer where
  | standard
  | cardinality
  | partition
  | inequality
deriving DecidableEq, Repr

inductive Mixer where
  | base (b : BaseMixer)
  | composite (ms : List BaseMixer)
deriving DecidableEq, Repr

namespace StandardMixer

/-- StandardMixer.generate_circuit: one `rx(2 * theta)` per qubit. -/
def generate_circuit (n_qubits : ℕ) (theta : String) : List String :=
  (List.range n_qubits).map
    (fun i => "rx(2 * " ++ theta ++ ") q[" ++ toString i ++ "];")

end StandardMixer

namespace CardinalityMixer

/-- CardinalityMixer.generate_circuit: for every pair i < j the block
H;H; CX i→j; Rz(theta) j; CX i→j; H;H. -/
def generate_circuit (n_qubits : ℕ) (theta : String) : List String :=
  (List.range n_qubits).flatMap (fun i =>
    (List.range' (i + 1) (n_qubits - (i + 1))).flatMap (fun j =>
      ["h q[" ++ toString i ++ "];",
       "h q[" ++ toString j ++ "];",
       "cx q[" ++ toString i ++ "], q[" ++ toString j ++ "];",
       "rz(" ++ theta ++ ") q[" ++ toString j ++ "];",
       "cx q[" ++ toString i ++ "], q[" ++ toString j ++ "];",
       "h q[" ++ toString i ++ "];",
       "h q[" ++ toString j ++ "];"]))

end CardinalityMixer

namespace PartitionMixer

/-- PartitionMixer.generate_circuit: for i = 0, 2, 4, … < n-1 the block
SWAP i,i+1; Rz(theta) i; Rz(theta) i+1.  Python `range(0, n-1, 2)` has
`⌈(n-1)/2⌉` elements. -/
def generate_circuit (n_qubits : ℕ) (theta : String) : List String :=
  (List.range ((n_qubits - 1 + 1) / 2)).flatMap (fun k =>
    let i := 2 * k
    ["swap q[" ++ toString i ++ "], q[" ++ toString (i + 1) ++ "];",
     "rz(" ++ theta ++ ") q[" ++ toString i ++ "];",
     "rz(" ++ theta ++ ") q[" ++ toString (i + 1) ++ "];"])

end PartitionMixer

namespace InequalityMixer

/-- InequalityMixer.generate_circuit: for i = 0 .. n-2 the block
CX i→i+1; Rz(theta) i+1; CX i→i+1. -/
def generate_circuit (n_qubits : ℕ) (theta : String) : List String :=
  (List.range (n_qubits - 1)).flatMap (fun i =>
    ["cx q[" ++ toString i ++ "], q[" ++ toString (i + 1) ++ "];",
     "rz(" ++ theta ++ ") q[" ++ toString (i + 1) ++ "];",
     "cx q[" ++ toString i ++ "], q[" ++ toString (i + 1) ++ "];"])

end InequalityMixer

/-- Circuit of a base mixer. -/
def BaseMixer.generate_circuit : BaseMixer → ℕ → String → List String
  | .standard, n, theta => StandardMixer.generate_circuit n theta
  | .cardinality, n, theta => CardinalityMixer.generate_circuit n theta
  | .partition, n, theta => PartitionMixer.generate_circuit n theta
  | .inequality, n, theta => InequalityMixer.generate_circuit n theta

/-- Circuit of a mixer; `CompositeMixer.generate_circuit` concatenates
the component circuits in order. -/
def Mixer.generate_circuit : Mixer → ℕ → String → List String
  | .base b, n, theta => b.generate_circuit n theta
  | .composite ms, n, theta =>
      ms.flatMap (fun b => b.generate_circuit n theta)

namespace MixerFactory

/-- `MixerFactory._get_mixer_for_type`: look up the mixer class for a
constraint type; anything but cardinality / partition / inequality
falls through to StandardMixer. -/
def getMixerForType : ConstraintType → BaseMixer
  | .cardinality => BaseMixer.cardinality
  | .partition => BaseMixer.partition
  | .inequality => BaseMixer.inequality
  | _ => BaseMixer.standard

/-- `MixerFactory._get_all_constraints`.  Note the code reads the key
`'additional_constraints'` out of `constraint_info.parameters` (the
dict), not out of the dataclass field of the same name.  `list(set(…))`
is embedded as `dedup` (the list is built duplicate-free in the only
call sites that matter, and nothing downstream depends on order beyond
its length). -/
def getAllConstraints (ci : ConstraintInfo) (t : ConstraintType) :
    List ConstraintType :=
  let constraints :=
    if t ≠ ConstraintType.unconstrained then [t] else []
  let constraints :=
    if ci.parameters ≠ [] ∧ dictHasKey ci.parameters "additional_constraints"
    then
      constraints ++
        (match dictGet ci.parameters "additional_constraints" with
         | some (ParamValue.ctypes l) => l
         | _ => [])
    else constraints
  constraints.dedup

/-- `MixerFactory.get_mixer`: None type → StandardMixer; more than one
collected constraint → CompositeMixer over the per-type mixers;
otherwise the mixer for `constraint_info.type`. -/
def get_mixer (ci : ConstraintInfo) : Mixer :=
  match ci.type with
  | none => Mixer.base BaseMixer.standard
  | some t =>
      let constraints := getAllConstraints ci t
      if constraints.length > 1 then
        Mixer.composite (constraints.map getMixerForType)
      else
        Mixer.base (getMixerForType t)

end MixerFactory

/-! Result extractor and energy evaluation,
`qplex/commons/workflow_utils.py`. -/

/-- Python `int(ch)` on a single character: its digit value, or an
error for a non-digit. -/
def charDigit (ch : Char) : Option ℕ :=
  if ch.isDigit then some (ch.toNat - '0'.toNat) else none

/-- Python `max(optimal_counts.items(), key=lambda x: x[1])`: the first
entry (in iteration order) attaining the maximal count; `max` of an
empty dict raises, hence `none`.  A strictly greater count replaces the
accumulator, so ties keep the earlier entry — exactly CPython `max`. -/
def pyMaxBySnd (l : List (String × ℕ)) : Option (String × ℕ) :=
  match l with
  | [] => none
  | x :: xs => some (xs.foldl (fun acc y => if y.2 > acc.2 then y else acc) x)

/-- Maximum count appearing in a histogram (0 for the empty one). -/
def maxSnd : List (String × ℕ) → ℕ
  | [] => 0
  | p :: ps => max p.2 (maxSnd ps)

/-- The `values` dict: `values[var.name] = int(best_solution[i])` for
the i-th declared variable; `none` when the bitstring is too short or a
character is not a digit (Python IndexError / ValueError). -/
def buildValues (vars : List Var) (bits : List Char) :
    Option (List (String × ℕ)) :=
  vars.enum.foldlM
    (fun d p => do
      let ch ← bits.get? p.1
      let v ← charDigit ch
      pure (dictInsert d p.2.name v))
    []

/-- Objective accumulation of `get_solution_from_counts`: the linear
loop `obj += values[name] * coef` followed by the quadratic loop
`obj += values[n1] * values[n2] * coef`; `none` on a missing variable
(Python KeyError). -/
def evalObjective (values : List (String × ℕ))
    (lin : List (String × ℚ)) (quad : List (String × String × ℚ)) :
    Option ℚ := do
  let s1 ← lin.foldlM
    (fun acc t => do
      let v ← dictGet values t.1
      pure (acc + (v : ℚ) * t.2))
    (0 : ℚ)
  quad.foldlM
    (fun acc t => do
      let v1 ← dictGet values t.1
      let v2 ← dictGet values t.2.1
      pure (acc + (v1 : ℚ) * (v2 : ℚ) * t.2.2))
    s1

/-- Extracted solution: objective value and per-variable assignment. -/
structure Solution where
  objective : ℚ
  solution : List (String × ℕ)
deriving DecidableEq, Repr

/-- Decode the chosen bitstring into a `Solution` (the part of
`get_solution_from_counts` after the best entry is picked, on the
default `interpret=False` path, which is the only one the embedded
claims exercise). -/
def solutionFromBest (model : PModel) (best : Option (String × ℕ)) :
    Option Solution :=
  best.bind (fun b =>
    (buildValues model.vars b.1.data).bind (fun values =>
      (evalObjective values model.objLinear model.objQuad).map
        (fun obj => ⟨obj, values⟩)))

/-- `get_solution_from_counts` from `qplex/commons/workflow_utils.py`
(default path, no interpreter): pick the best entry with Python `max`
keyed on the count, then decode it. -/
def get_solution_from_counts (model : PModel)
    (optimal_counts : List (String × ℕ)) : Option Solution :=
  solutionFromBest model (pyMaxBySnd optimal_counts)

/-- Algorithm-instance state read by `calculate_energy`: the QUBO
objective (abstract evaluation function, `qubo.objective.evaluate`) and
the iteration counter. -/
structure AlgInstance where
  quboEval : List ℚ → ℚ
  iteration : ℕ

/-- Cast a list of naturals to rationals (the bit values handed to the
objective). -/
def natsToRats (l : List ℕ) : List ℚ :=
  l.map (fun k : ℕ => (k : ℚ))

/-- `calculate_energy` from `qplex/commons/workflow_utils.py`:
`energy += count * qubo.objective.evaluate([int(n) for n in sample])`
over all histogram entries, then `iteration += 1`, then
`energy / shots`.  A non-digit character raises (hence `none`); `ℚ`
division stands for Python float division. -/
def calculate_energy (counts : List (String × ℕ)) (shots : ℕ)
    (alg : AlgInstance) : Option (ℚ × AlgInstance) := do
  let energy ← counts.foldlM
    (fun acc p => do
      let sample ← p.1.data.mapM charDigit
      pure (acc + (p.2 : ℚ) * alg.quboEval (natsToRats sample)))
    (0 : ℚ)
  pure (energy / (shots : ℚ), { alg with iteration := alg.iteration + 1 })

/-! Parameter substitution, `qplex/utils/circuit_utils.py`, and the
QAOA / VQE parameter-update methods.  Parameter vectors are embedded as
lists of already-rendered value strings (`str(param)`). -/

/-- True when the regex `theta(\d+)` matches at the head of the
character list: the literal `theta` followed by at least one digit. -/
def isThetaAt (l : List Char) : Bool :=
  List.isPrefixOf ['t', 'h', 'e', 't', 'a'] l &&
    ((l.drop 5).headD ' ').isDigit

/-- Decimal value of a digit run (`int(match.group(1))`). -/
def digitsToNat (ds : List Char) : ℕ :=
  ds.foldl (fun acc c => acc * 10 + (c.toNat - '0'.toNat)) 0

/-- Scanner of `re.sub(r'theta(\d+)', replacer, circuit)`: left to
right, at each position either the pattern matches (the maximal digit
run is consumed, greedy `\d+`, and `params[k]` is emitted; an index
beyond the vector raises IndexError, hence `none`) or one character is
copied.  The first argument is fuel, always called with the list
length; every step consumes at least one character, so the zero-fuel
case with a nonempty list is unreachable. -/
def replaceParamsAux (params : List String) :
    ℕ → List Char → Option (List Char)
  | _, [] => some []
  | 0, _ :: _ => none
  | Nat.succ n, c :: cs =>
      if isThetaAt (c :: cs) then
        let ds := ((c :: cs).drop 5).takeWhile Char.isDigit
        match params.get? (digitsToNat ds) with
        | none => none
        | some v =>
            (replaceParamsAux params n ((c :: cs).drop (5 + ds.length))).map
              (fun rest => v.data ++ rest)
      else
        (replaceParamsAux params n cs).map (fun rest => c :: rest)

/-- `replace_params` from `qplex/utils/circuit_utils.py`. -/
def replace_params (circuit : String) (params : List String) :
    Option String :=
  (replaceParamsAux params circuit.data.length circuit.data).map
    (fun l => String.mk l)

/-- State of a QAOA instance that `update_params` reads: the depth p
and the stored circuit text built by `create_circuit`. -/
structure QAOAAlg where
  p : ℕ
  circuit : String
deriving DecidableEq, Repr

/-- QAOA `num_params = 2 * p`. -/
def QAOAAlg.num_params (a : QAOAAlg) : ℕ := 2 * a.p

/-- `QAOA.update_params`: raise ValueError on an arity mismatch,
otherwise substitute into the stored circuit (which is not modified). -/
def QAOAAlg.update_params (a : QAOAAlg) (params : List String) :
    Except String String :=
  if params.length ≠ a.num_params then
    Except.error ("Expected " ++ toString a.num_params ++
      " parameters, got " ++ toString params.length)
  else
    match replace_params a.circuit params with
    | some s => Except.ok s
    | none => Except.error "IndexError"

/-- One `update_params` call viewed as a state transition: the Python
method returns the substituted text and leaves the instance unchanged
(its body never assigns to `self`), which the pair makes explicit. -/
def QAOAAlg.update_params_run (a : QAOAAlg) (params : List String) :
    (Except String String) × QAOAAlg :=
  (a.update_params params, a)

/-- Python `str.replace(pat, repl)`: replace all non-overlapping
occurrences, scanning left to right.  Fuel as in `replaceParamsAux`. -/
def replaceAllAux (pat repl : List Char) : ℕ → List Char → List Char
  | _, [] => []
  | 0, l => l
  | Nat.succ n, c :: cs =>
      if List.isPrefixOf pat (c :: cs) then
        repl ++ replaceAllAux pat repl n ((c :: cs).drop pat.length)
      else
        c :: replaceAllAux pat repl n cs

/-- Python `s.replace(pat, repl)` on strings. -/
def pyStrReplace (s pat repl : String) : String :=
  String.mk (replaceAllAux pat.data repl.data s.data.length s.data)

/-- True when `pat` occurs as a contiguous sublist. -/
def containsPat (pat : List Char) : List Char → Bool
  | [] => List.isPrefixOf pat []
  | c :: cs => List.isPrefixOf pat (c :: cs) || containsPat pat cs

/-- Python `pat in s` on strings. -/
def strContains (s pat : String) : Bool :=
  containsPat pat.data s.data

/-- `VQE.create_circuit` from `qplex/algorithms/vqe.py`: the literal
triple-quoted header (with its indentation), one `ry(ry_angle_pc)` per
qubit, then per layer and adjacent pair the CX;RY;RY;CX;RY;RY block,
then measurements.  The running parameter counter pc is expressed in
closed form `n + 4*(d*(n-1) + i)`. -/
def vqeCreateCircuit (n layers : ℕ) : String :=
  let header := "\n        qreg q[" ++ toString n ++ "];\n        creg c["
    ++ toString n ++ "];\n        "
  let s1 := (List.range n).foldl
    (fun acc i =>
      acc ++ "ry(ry_angle_" ++ toString i ++ ") q[" ++ toString i ++ "];\n")
    header
  let s2 := (List.range layers).foldl
    (fun acc d =>
      (List.range (n - 1)).foldl
        (fun acc2 i =>
          let pc := n + 4 * (d * (n - 1) + i)
          acc2 ++ "cx q[" ++ toString i ++ "], q[" ++ toString (i + 1)
            ++ "];\n"
            ++ "ry(ry_angle_" ++ toString pc ++ ") q[" ++ toString i
            ++ "];\n"
            ++ "ry(ry_angle_" ++ toString (pc + 1) ++ ") q["
            ++ toString (i + 1) ++ "];\n"
            ++ "cx q[" ++ toString i ++ "], q[" ++ toString (i + 1)
            ++ "];\n"
            ++ "ry(ry_angle_" ++ toString (pc + 2) ++ ") q[" ++ toString i
            ++ "];\n"
            ++ "ry(ry_angle_" ++ toString (pc + 3) ++ ") q["
            ++ toString (i + 1) ++ "];\n")
        acc)
    s1
  (List.range n).foldl
    (fun acc i =>
      acc ++ "measure q[" ++ toString i ++ "] -> c[" ++ toString i ++ "];\n")
    s2

/-- State of a VQE instance that `update_params` reads. -/
structure VQEAlg where
  layers : ℕ
  n : ℕ
  ansatz : String
deriving DecidableEq, Repr

/-- Parameter count of the generated VQE ansatz (the length of
`get_starting_point`, `n + 4*(n-1)*layers`; the class itself stores no
`num_params` attribute). -/
def VQEAlg.num_params (a : VQEAlg) : ℕ :=
  a.n + 4 * (a.n - 1) * a.layers

/-- `VQE.update_params`: for each provided value in order, string-replace
`ry_angle_{pc}` by it.  There is no arity check of any kind; the result
is always a circuit text. -/
def VQEAlg.update_params (a : VQEAlg) (params : List String) : String :=
  params.enum.foldl
    (fun circ pc => pyStrReplace circ ("ry_angle_" ++ toString pc.1) pc.2)
    a.ansatz

/-! QAOA circuit compiler, `qplex/algorithms/qaoa.py`.  Numeric
rendering of an angle coefficient (Python str of a float inside the
f-string) is abstracted as a function `fmt : ℚ → String`. -/

/-- Dense QUBO arrays read by `create_circuit`: `n` binary variables,
`objective.linear.to_array()` and `objective.quadratic.to_array()`. -/
structure QUBOArrays where
  n : ℕ
  linear : List ℚ
  quad : List (List ℚ)
deriving DecidableEq, Repr

/-- Row i of the quadratic array. -/
def QUBOArrays.row (q : QUBOArrays) (i : ℕ) : List ℚ :=
  q.quad.getD i []

/-- Entry (i, j) of the quadratic array. -/
def QUBOArrays.entry (q : QUBOArrays) (i j : ℕ) : ℚ :=
  (q.row i).getD j 0

/-- `QAOA.create_circuit` as the list of emitted OpenQASM3 lines (the
Python code joins them with newlines at the end): 2p parameter
declarations, register declarations, a Hadamard per qubit, then per
layer the cost rotations (`enumerate` over the linear array, with the
row sum of the quadratic array folded into the angle), the CX;RZ;CX
blocks for pairs i < j with a nonzero quadratic entry, the mixer lines
for `theta(2*idx+1)`, and finally one measurement per qubit. -/
def qaoaCircuitLines (fmt : ℚ → String) (q : QUBOArrays) (p : ℕ)
    (mixer : Mixer) : List String :=
  ((List.range (2 * p)).map
      (fun i => "input float[64] theta" ++ toString i ++ ";"))
    ++ ["qreg q[" ++ toString q.n ++ "];",
        "creg c[" ++ toString q.n ++ "];"]
    ++ ((List.range q.n).map (fun i => "h q[" ++ toString i ++ "];"))
    ++ ((List.range p).flatMap (fun idx =>
          (q.linear.enum.map (fun iw =>
            "rz(" ++ ("theta" ++ toString (2 * idx)) ++ " * "
              ++ fmt (iw.2 + (q.row iw.1).sum)
              ++ ") q[" ++ toString iw.1 ++ "];"))
          ++ ((List.range q.n).flatMap (fun i =>
                (List.range' (i + 1) (q.n - (i + 1))).flatMap (fun j =>
                  if q.entry i j ≠ 0 then
                    ["cx q[" ++ toString i ++ "], q[" ++ toString j ++ "];",
                     "rz(" ++ ("theta" ++ toString (2 * idx)) ++ " * "
                       ++ fmt (q.entry i j / 2)
                       ++ ") q[" ++ toString j ++ "];",
                     "cx q[" ++ toString i ++ "], q[" ++ toString j ++ "];"]
                  else [])))
          ++ mixer.generate_circuit q.n ("theta" ++ toString (2 * idx + 1))))
    ++ ((List.range q.n).map
          (fun i => "measure q[" ++ toString i ++ "] -> c[" ++ toString i
            ++ "];"))

/-- `QAOA.create_circuit`'s returned string, `"\n".join(lines)`. -/
def qaoaCreateCircuit (fmt : ℚ → String) (q : QUBOArrays) (p : ℕ)
    (mixer : Mixer) : String :=
  String.intercalate "\n" (qaoaCircuitLines fmt q p mixer)

/-! Annealing adapter, `qplex/solvers/dwave_solver.py`. -/

/-- Constant of a right expression (`right_expr.constant`). -/
def RightExpr.constant : RightExpr → ℚ
  | .num q => q
  | .expr => 0

/-- A dimod quadratic model under construction: added variables, linear
biases and quadratic biases (dicts in insertion order). -/
structure QuadSampler where
  vars : List (String × VarType)
  linear : List (String × ℚ)
  quadratic : List ((String × String) × ℚ)
deriving DecidableEq, Repr

/-- Fresh dimod model. -/
def QuadSampler.empty : QuadSampler := ⟨[], [], []⟩

/-- `add_variable`: registers the variable with linear bias 0. -/
def QuadSampler.addVariable (qm : QuadSampler) (name : String)
    (vt : VarType) : QuadSampler :=
  { qm with vars := qm.vars ++ [(name, vt)],
            linear := dictInsert qm.linear name 0 }

/-- `set_linear`. -/
def QuadSampler.setLinear (qm : QuadSampler) (name : String) (v : ℚ) :
    QuadSampler :=
  { qm with linear := dictInsert qm.linear name v }

/-- `set_quadratic`. -/
def QuadSampler.setQuadratic (qm : QuadSampler) (u w : String) (v : ℚ) :
    QuadSampler :=
  { qm with quadratic := dictInsert qm.quadratic (u, w) v }

/-- Sign multiplier of `parse_objective`:
`1 if model.objective_sense.name == "Minimize" else -1`. -/
def senseMult (m : PModel) : ℚ :=
  if m.sense = Sense.minimize then 1 else -1

/-- `DWaveSolver.parse_objective`: add every model variable (for the
BQM branch only the name is passed, i.e. a binary variable; otherwise
the variable's own kind), then set each linear and quadratic objective
coefficient multiplied by the sense multiplier.  Variable bounds are
not tracked (no embedded claim reads them). -/
def parse_objective (model : PModel) (parsed : QuadSampler)
    (bqmStyle : Bool) : QuadSampler :=
  let parsed := model.vars.foldl
    (fun qm v =>
      qm.addVariable v.name (if bqmStyle then VarType.binary else v.vtype))
    parsed
  let mult := senseMult model
  let parsed := model.objLinear.foldl
    (fun qm t => qm.setLinear t.1 (t.2 * mult)) parsed
  model.objQuad.foldl
    (fun qm t => qm.setQuadratic t.1 t.2.1 (t.2.2 * mult)) parsed

/-- `DWaveSolver.parse_constraint`: translate a constraint's left
expression into a fresh quadratic model (no sense multiplier here). -/
def parse_constraint (c : Constraint) : QuadSampler :=
  let qm := c.lhs.foldl
    (fun qm t => qm.addVariable t.var.name t.var.vtype) QuadSampler.empty
  c.lhs.foldl (fun qm t => qm.setLinear t.var.name t.coef) qm

/-- Result of `DWaveSolver.parse_input`: a ConstrainedQuadraticModel
(objective plus translated constraints with label, sense and rhs), a
DiscreteQuadraticModel, or a BinaryQuadraticModel. -/
inductive ParsedModel where
  | cqm (objective : QuadSampler)
      (constraints : List (String × ComparisonType × ℚ × QuadSampler))
  | dqm (qm : QuadSampler)
  | bqm (qm : QuadSampler)
deriving DecidableEq, Repr

/-- The objective quadratic model carried by a parsed model. -/
def ParsedModel.objectiveQM : ParsedModel → QuadSampler
  | .cqm obj _ => obj
  | .dqm qm => qm
  | .bqm qm => qm

/-- `DWaveSolver.parse_input`: any constraint → CQM (model type 'REAL');
otherwise an integer variable → DQM ('INTEGER'); otherwise BQM
('BINARY'). -/
def parse_input (model : PModel) : ParsedModel × String :=
  if model.constraints.length > 0 then
    (ParsedModel.cqm (parse_objective model QuadSampler.empty false)
       (model.constraints.map
         (fun c => (c.label, c.sense, c.rhs.constant, parse_constraint c))),
     "REAL")
  else if model.vars.any (fun v => v.vtype = VarType.integer) then
    (ParsedModel.dqm (parse_objective model QuadSampler.empty false),
     "INTEGER")
  else
    (ParsedModel.bqm (parse_objective model QuadSampler.empty true),
     "BINARY")

/-! Spec-side definitions for parameter substitution. -/

/-- Word character for regex word boundaries. -/
def isWordChar (c : Char) : Bool := c.isAlphanum || c = '_'

/-- Spec-side substitution with word-boundary matching
(`\btheta(\d+)\b`): a match additionally requires the preceding
character (if any) to be a non-word character and the character after
the digit run (if any) to be a non-word character. -/
def specReplaceWBAux (params : List String) :
    Option Char → ℕ → List Char → Option (List Char)
  | _, _, [] => some []
  | _, 0, _ :: _ => none
  | prev, Nat.succ n, c :: cs =>
      let boundaryBefore :=
        match prev with
        | none => true
        | some pc => !isWordChar pc
      let ds := ((c :: cs).drop 5).takeWhile Char.isDigit
      let boundaryAfter :=
        !isWordChar (((c :: cs).drop (5 + ds.length)).headD ' ')
      if boundaryBefore && isThetaAt (c :: cs) && boundaryAfter then
        match params.get? (digitsToNat ds) with
        | none => none
        | some v =>
            (specReplaceWBAux params (some '0') n
                ((c :: cs).drop (5 + ds.length))).map
              (fun rest => v.data ++ rest)
      else
        (specReplaceWBAux params (some c) n cs).map (fun rest => c :: rest)

/-- Spec-side `replace_params` with word-boundary matching. -/
def spec_replace_params_wb (circuit : String) (params : List String) :
    Option String :=
  (specReplaceWBAux params none circuit.data.length circuit.data).map
    (fun l => String.mk l)

/-! Spec-side definitions (written from the specification's words, for
comparison against the source-derived definitions above). -/

/-- Strict lexicographic order on character lists. -/
def charListLt : List Char → List Char → Bool
  | [], [] => false
  | [], _ :: _ => true
  | _ :: _, [] => false
  | a :: as, b :: bs =>
      if a < b then true else if b < a then false else charListLt as bs

/-- Lexicographic ≤ on strings. -/
def strLeLex (a b : String) : Bool := !(charListLt b.data a.data)

/-- Best entry as the specification words it: among the entries sharing
the maximal count, the lexicographically smallest bitstring (with its
count). -/
def specBestBitstring (l : List (String × ℕ)) : Option (String × ℕ) :=
  (l.filter (fun p => maxSnd l ≤ p.2)).foldr
    (fun p acc =>
      match acc with
      | none => some p
      | some q => if strLeLex p.1 q.1 then some p else some q)
    none

/-- Result extractor as the specification words it: maximal count with
lexicographic tie-break, then the same decoding. -/
def spec_get_solution_from_counts (model : PModel)
    (optimal_counts : List (String × ℕ)) : Option Solution :=
  solutionFromBest model (specBestBitstring optimal_counts)

/-- First histogram entry attaining the maximal count (the amended
description of what the code picks). -/
def firstMaxEntry (l : List (String × ℕ)) : Option (String × ℕ) :=
  l.find? (fun p => maxSnd l ≤ p.2)

/-! Spec-side definitions for the mixer claims. -/

/-- Block described by the spec for the XY (cardinality) mixer on a
pair i < j: `H;H; CX i→j; Rz(θ) j; CX i→j; H;H`. -/
def specXYBlock (i j : ℕ) (theta : String) : List String :=
  ["h q[" ++ toString i ++ "];",
   "h q[" ++ toString j ++ "];",
   "cx q[" ++ toString i ++ "], q[" ++ toString j ++ "];",
   "rz(" ++ theta ++ ") q[" ++ toString j ++ "];",
   "cx q[" ++ toString i ++ "], q[" ++ toString j ++ "];",
   "h q[" ++ toString i ++ "];",
   "h q[" ++ toString j ++ "];"]

/-- All pairs i < j over n qubits, i-major, j ascending. -/
def specXYPairs (n : ℕ) : List (ℕ × ℕ) :=
  (List.range n).flatMap (fun i =>
    ((List.range n).filter (fun j => i < j)).map (fun j => (i, j)))

/-- Circuit the spec describes for the XY mixer: the concatenation of
the pairwise blocks. -/
def specXYCircuit (n : ℕ) (theta : String) : List String :=
  (specXYPairs n).flatMap (fun p => specXYBlock p.1 p.2 theta)

/-- Line does not invoke an rx gate (does not start with "rx"). -/
def noRxLine (s : String) : Prop :=
  s.data.take 2 ≠ ['r', 'x']

/-! Spec-side description of the QAOA circuit (per the specification's
sentences for C7). -/

/-- Parameter declarations theta0 .. theta(2p-1). -/
def specQAOADecls (p : ℕ) : List String :=
  (List.range (2 * p)).map
    (fun i => "input float[64] theta" ++ toString i ++ ";")

/-- Quantum and classical register declarations. -/
def specQAOARegs (n : ℕ) : List String :=
  ["qreg q[" ++ toString n ++ "];", "creg c[" ++ toString n ++ "];"]

/-- Opening Hadamard on each of the n qubits. -/
def specQAOAHadamards (n : ℕ) : List String :=
  (List.range n).map (fun i => "h q[" ++ toString i ++ "];")

/-- Cost rotations of layer l: for every qubit i one rotation
`rz(theta_{2l} * (h_i + Σ_j J_{i,j}))`. -/
def specQAOACostRz (fmt : ℚ → String) (q : QUBOArrays) (l : ℕ) :
    List String :=
  (List.range q.n).map (fun i =>
    "rz(" ++ ("theta" ++ toString (2 * l)) ++ " * "
      ++ fmt (q.linear.getD i 0 + (q.row i).sum) ++ ") q[" ++ toString i
      ++ "];")

/-- Coupling block of layer l for one pair (i, j):
`CX i→j; Rz(theta_{2l} * J_{i,j}/2) j; CX i→j`. -/
def specQAOAPairBlock (fmt : ℚ → String) (q : QUBOArrays) (l i j : ℕ) :
    List String :=
  ["cx q[" ++ toString i ++ "], q[" ++ toString j ++ "];",
   "rz(" ++ ("theta" ++ toString (2 * l)) ++ " * " ++ fmt (q.entry i j / 2)
     ++ ") q[" ++ toString j ++ "];",
   "cx q[" ++ toString i ++ "], q[" ++ toString j ++ "];"]

/-- Coupling blocks of layer l: every pair i < j with `J_{i,j} ≠ 0`. -/
def specQAOACouplings (fmt : ℚ → String) (q : QUBOArrays) (l : ℕ) :
    List String :=
  (List.range q.n).flatMap (fun i =>
    (((List.range q.n).filter (fun j => i < j)).filter
        (fun j => q.entry i j ≠ 0)).flatMap
      (fun j => specQAOAPairBlock fmt q l i j))

/-- One measurement per qubit. -/
def specQAOAMeasures (n : ℕ) : List String :=
  (List.range n).map
    (fun i => "measure q[" ++ toString i ++ "] -> c[" ++ toString i ++ "];")

/-- The whole QAOA circuit as the specification describes it:
declarations, registers, Hadamards, then for each layer the cost
rotations, the coupling blocks and the mixer circuit on
`theta_{2l+1}`, ending with the measurements. -/
def specQAOACircuit (fmt : ℚ → String) (q : QUBOArrays) (p : ℕ)
    (mixer : Mixer) : List String :=
  specQAOADecls p ++ specQAOARegs q.n ++ specQAOAHadamards q.n
    ++ ((List.range p).flatMap (fun l =>
          specQAOACostRz fmt q l ++ specQAOACouplings fmt q l
            ++ mixer.generate_circuit q.n ("theta" ++ toString (2 * l + 1))))
    ++ specQAOAMeasures q.n

/-! Concrete instances used by counterexamples and witnesses. -/

/-- Histogram with a tie at the maximal count, the lexicographically
larger bitstring first. -/
def countsTie : List (String × ℕ) := [("1", 1), ("0", 1)]

/-- Model with the single binary variable x and objective x. -/
def modelOneVar : PModel := ⟨[⟨"x", VarType.binary, 0, 1⟩], [], [("x", 1)],
  [], Sense.minimize⟩

/-- Small QAOA instance (p = 1) with a two-parameter circuit. -/
def qaoaSmall : QAOAAlg :=
  ⟨1, "rz(theta0 * 2) q[0];\nrx(2 * theta1) q[0];"⟩

/-- VQE instance over 2 qubits with 1 layer, with the ansatz produced
by `create_circuit` (6 parameters). -/
def vqeSmall : VQEAlg := ⟨1, 2, vqeCreateCircuit 2 1⟩

/-- VQE instance over 3 qubits with 1 layer, with the ansatz produced
by `create_circuit` (11 parameters, ry_angle_0 .. ry_angle_10). -/
def vqeEleven : VQEAlg := ⟨1, 3, vqeCreateCircuit 3 1⟩

/-- A 12-value parameter vector (wrong length for `vqeEleven`), with
distinctive values at indices 1 and 10. -/
def paramsTwelve : List String :=
  ["p0", "1.5", "p2", "p3", "p4", "p5", "p6", "p7", "p8", "p9", "7.7",
   "p11"]

/-- QUBO arrays of a 2-variable problem: h = (1, 2), J₀₁ = 3 (stored in
both triangles of the dense array, as a symmetric `to_array` yields). -/
def quboSmall : QUBOArrays := ⟨2, [1, 2], [[0, 3], [3, 0]]⟩

/-- Maximization model without constraints over one binary variable,
objective x + 5·x·x. -/
def modelMaxBqm : PModel := ⟨[⟨"x", VarType.binary, 0, 1⟩], [], [("x", 1)],
  [("x", "x", 5)], Sense.maximize⟩

/-- Maximization model with one constraint (x + y ≤ 1) and objective
2x + 3y. -/
def modelMaxCqm : PModel :=
  ⟨[⟨"x", VarType.binary, 0, 1⟩, ⟨"y", VarType.binary, 0, 1⟩],
   [⟨ComparisonType.le, [⟨⟨"x", VarType.binary, 0, 1⟩, 1⟩,
      ⟨⟨"y", VarType.binary, 0, 1⟩, 1⟩], RightExpr.num 1, "c1"⟩],
   [("x", 2), ("y", 3)], [("x", "y", 4)], Sense.maximize⟩

/-- Histogram for the energy witness. -/
def countsEnergy : List (String × ℕ) := [("01", 3), ("10", 1)]

/-- Algorithm instance for the energy witness: the QUBO objective sums
the bits, iteration counter at 5. -/
def algEnergy : AlgInstance := ⟨fun xs => xs.sum, 5⟩

/-- Binary variable x. -/
def varX : Var := ⟨"x", VarType.binary, 0, 1⟩

/-- Binary variable y. -/
def varY : Var := ⟨"y", VarType.binary, 0, 1⟩

/-- Cardinality constraint x + y = 2. -/
def constrCardXY : Constraint :=
  ⟨ComparisonType.eq, [⟨varX, 1⟩, ⟨varY, 1⟩], RightExpr.num 2, "c1"⟩

/-- Inequality constraint 2x + 3y ≤ 5. -/
def constrIneqXY : Constraint :=
  ⟨ComparisonType.le, [⟨varX, 2⟩, ⟨varY, 3⟩], RightExpr.num 5, "c2"⟩

/-- Model with both a cardinality and an inequality constraint: the
inspector classifies it as Multiple. -/
def modelMulti : PModel :=
  ⟨[varX, varY], [constrCardXY, constrIneqXY], [("x", 1)], [],
   Sense.minimize⟩

/-- Model with the single cardinality constraint x + y = 2. -/
def modelCard : PModel :=
  ⟨[varX, varY], [constrCardXY], [("x", 1)], [], Sense.minimize⟩

/-- Integer variable u with bounds 0..10. -/
def varU : Var := ⟨"u", VarType.integer, 0, 10⟩

/-- Integer variable v with bounds 0..10. -/
def varV : Var := ⟨"v", VarType.integer, 0, 10⟩

/-- Equality u + v = -3 over integer variables. -/
def constrIntNeg : Constraint :=
  ⟨ComparisonType.eq, [⟨varU, 1⟩, ⟨varV, 1⟩], RightExpr.num (-3), "c1"⟩

/-- Model whose sole constraint is u + v = -3 over integer variables. -/
def modelIntNeg : PModel :=
  ⟨[varU, varV], [constrIntNeg], [("u", 1)], [], Sense.minimize⟩

end QPLEX

namespace QPLEX

/-! Helper lemmas. -/

theorem mem_dictInsert {κ α : Type} [DecidableEq κ] {d : List (κ × α)}
    {k : κ} {v : α} {p : κ × α} (hp : p ∈ dictInsert d k v) :
    p = (k, v) ∨ p ∈ d := by
  induction d with
  | nil =>
      rw [dictInsert] at hp
      exact Or.inl (List.mem_singleton.mp hp)
  | cons q qs ih =>
      rw [dictInsert] at hp
      by_cases h : q.1 = k
      · rw [if_pos h] at hp
        rcases List.mem_cons.mp hp with h1 | h1
        · exact Or.inl h1
        · exact Or.inr (List.mem_cons_of_mem q h1)
      · rw [if_neg h] at hp
        rcases List.mem_cons.mp hp with h1 | h1
        · exact Or.inr (h1 ▸ List.mem_cons_self q qs)
        · rcases ih h1 with h2 | h2
          · exact Or.inl h2
          · exact Or.inr (List.mem_cons_of_mem q h2)

theorem coefficients_all_one {c : Constraint}
    (h : ∀ t ∈ c.lhs, t.coef = 1) :
    ∀ p ∈ get_coefficients c, p.2 = (1 : ℚ) := by
  unfold get_coefficients
  suffices H : ∀ (l : List LinTerm) (d : List (String × ℚ)),
      (∀ p ∈ d, p.2 = (1 : ℚ)) → (∀ t ∈ l, t.coef = 1) →
      ∀ p ∈ l.foldl (fun d t => dictInsert d t.var.name t.coef) d,
        p.2 = (1 : ℚ) by
    exact H c.lhs [] (by simp) h
  intro l
  induction l with
  | nil => intro d hd _ p hp; exact hd p hp
  | cons t ts ih =>
      intro d hd hl p hp
      simp only [List.foldl_cons] at hp
      refine ih (dictInsert d t.var.name t.coef) ?_ ?_ p hp
      · intro q hq
        rcases mem_dictInsert hq with h | h
        · rw [h]; exact hl t (by simp)
        · exact hd q h
      · intro s hs; exact hl s (by simp [hs])

theorem isCardinalityConst_of_unit_eq {c : Constraint} {q : ℚ}
    (hs : c.sense = ComparisonType.eq)
    (hcoef : ∀ t ∈ c.lhs, t.coef = 1)
    (hrhs : c.rhs = RightExpr.num q) :
    isCardinalityConst c = true := by
  have hall : (get_coefficients c).all (fun p => p.2 = (1 : ℚ)) = true := by
    rw [List.all_eq_true]
    intro p hp
    exact decide_eq_true (coefficients_all_one hcoef p hp)
  simp [isCardinalityConst, hs, hrhs, RightExpr.isNum, hall]

theorem isPartitionConst_of_unit {c : Constraint}
    (hcoef : ∀ t ∈ c.lhs, t.coef = 1) :
    isPartitionConst c = false := by
  have hne : get_unique_coefs c ≠ ({1, -1} : Finset ℚ) := by
    intro h
    have hmem : (-1 : ℚ) ∈ get_unique_coefs c := by
      rw [h]; simp
    rcases List.mem_map.mp (List.mem_toFinset.mp hmem) with ⟨t, ht, hte⟩
    rw [hcoef t ht] at hte
    norm_num at hte
  simp [isPartitionConst, hne]

theorem isInequalityConst_of_eq {c : Constraint}
    (hs : c.sense = ComparisonType.eq) :
    isInequalityConst c = false := by
  simp [isInequalityConst, hs]

/-- Core classification lemma: a model whose sole constraint is an
equality with all coefficients 1 and a numeric right side is classified
Cardinality with `cardinality_k` bound to that right side. -/
theorem inspector_single_unit_eq {m : PModel} {c : Constraint} {q : ℚ}
    (hm : m.constraints = [c])
    (hs : c.sense = ComparisonType.eq)
    (hcoef : ∀ t ∈ c.lhs, t.coef = 1)
    (hrhs : c.rhs = RightExpr.num q) :
    get_model_constraint_info m =
      { type := some ConstraintType.cardinality
        parameters := [("cardinality_k", ParamValue.rexpr (RightExpr.num q))]
        additional_constraints := none } := by
  have h1 := isCardinalityConst_of_unit_eq hs hcoef hrhs
  have h2 := isPartitionConst_of_unit hcoef
  have h3 := isInequalityConst_of_eq hs
  simp [get_model_constraint_info, hm, List.filter_cons, h1, h2, h3, hrhs]

/-- Pairs j with i < j < n, as produced by filtering `range n`, equal
the contiguous range i+1 .. n-1. -/
theorem filter_lt_range (i n : ℕ) :
    (List.range n).filter (fun j => i < j) =
      List.range' (i + 1) (n - (i + 1)) := by
  induction n with
  | zero => simp
  | succ n ih =>
      rw [List.range_succ, List.filter_append, ih]
      by_cases h : i < n
      · have h1 : n + 1 - (i + 1) = (n - (i + 1)) + 1 := by omega
        have h2 : i + 1 + 1 * (n - (i + 1)) = n := by omega
        rw [h1, List.range'_concat, h2]
        simp [h]
      · have h1 : n + 1 - (i + 1) = n - (i + 1) := by omega
        rw [h1]
        simp [h]

/-- The source cardinality mixer emits exactly the pairwise XY blocks
the spec describes. -/
theorem cardinality_mixer_eq_specXY (n : ℕ) (theta : String) :
    CardinalityMixer.generate_circuit n theta = specXYCircuit n theta := by
  unfold specXYCircuit specXYPairs CardinalityMixer.generate_circuit
  rw [List.flatMap_assoc]
  refine List.flatMap_congr ?_
  intro i _
  rw [List.flatMap_map, filter_lt_range]
  rfl

/-- No line of the cardinality mixer's circuit starts with "rx". -/
theorem cardinality_mixer_no_rx (n : ℕ) (theta : String) :
    ∀ l ∈ CardinalityMixer.generate_circuit n theta, noRxLine l := by
  intro l hl
  unfold CardinalityMixer.generate_circuit at hl
  rcases List.mem_flatMap.mp hl with ⟨i, _, hli⟩
  rcases List.mem_flatMap.mp hli with ⟨j, _, hlj⟩
  unfold noRxLine
  simp only [List.mem_cons, List.mem_singleton] at hlj
  rcases hlj with h | h | h | h | h | h | h | h
  all_goals first
    | (subst h; simp [String.data_append, List.take_append])
    | exact absurd h (by simp)

theorem maxSnd_cons (x : String × ℕ) (l : List (String × ℕ)) :
    maxSnd (x :: l) = max x.2 (maxSnd l) := rfl

/-- Python `max` keyed on the count returns the first entry attaining
the maximal count. -/
theorem find?_max_foldl (x : String × ℕ) (xs : List (String × ℕ)) :
    (x :: xs).find? (fun p => maxSnd (x :: xs) ≤ p.2) =
      some (xs.foldl (fun acc y => if y.2 > acc.2 then y else acc) x) := by
  induction xs generalizing x with
  | nil =>
      simp [maxSnd]
  | cons y ys ih =>
      by_cases h : y.2 > x.2
      · have hm : maxSnd (x :: y :: ys) = maxSnd (y :: ys) := by
          simp only [maxSnd_cons]
          omega
        simp only [hm]
        have hx : ¬ (maxSnd (y :: ys) ≤ x.2) := by
          rw [maxSnd_cons]
          omega
        rw [List.find?_cons_of_neg _ (by simpa using hx)]
        simp only [List.foldl_cons]
        rw [if_pos h]
        exact ih y
      · have hm : maxSnd (x :: y :: ys) = maxSnd (x :: ys) := by
          simp only [maxSnd_cons]
          omega
        simp only [hm, List.foldl_cons]
        rw [if_neg h]
        by_cases hx : maxSnd (x :: ys) ≤ x.2
        · rw [List.find?_cons_of_pos _ (by simpa using hx)]
          have h2 := ih x
          rw [List.find?_cons_of_pos _ (by simpa using hx)] at h2
          exact h2
        · have hpy : ¬ (maxSnd (x :: ys) ≤ y.2) := by
            omega
          rw [List.find?_cons_of_neg _ (by simpa using hx),
              List.find?_cons_of_neg _ (by simpa using hpy)]
          have h2 := ih x
          rw [List.find?_cons_of_neg _ (by simpa using hx)] at h2
          exact h2

theorem pyMax_eq_firstMax (l : List (String × ℕ)) :
    pyMaxBySnd l = firstMaxEntry l := by
  cases l with
  | nil => rfl
  | cons x xs => exact (find?_max_foldl x xs).symm

theorem mapM_charDigit (s : List Char) (h : ∀ ch ∈ s, ch.isDigit) :
    s.mapM charDigit = some (s.map (fun ch => ch.toNat - '0'.toNat)) := by
  induction s with
  | nil => rfl
  | cons c cs ih =>
      rw [List.mapM_cons]
      have hc : charDigit c = some (c.toNat - '0'.toNat) := by
        simp [charDigit, h c (by simp)]
      rw [hc, ih (fun ch hch => h ch (by simp [hch]))]
      rfl

/-- The energy accumulation loop, as a closed sum. -/
theorem energy_foldlM (alg : AlgInstance) (counts : List (String × ℕ))
    (hdig : ∀ p ∈ counts, ∀ ch ∈ p.1.data, ch.isDigit) :
    ∀ a : ℚ,
      counts.foldlM
        (fun acc p => do
          let sample ← p.1.data.mapM charDigit
          pure (acc + (p.2 : ℚ) * alg.quboEval (natsToRats sample)))
        a =
      some (a + (counts.map (fun p => (p.2 : ℚ) *
        alg.quboEval (natsToRats (p.1.data.map
          (fun ch => ch.toNat - '0'.toNat))))).sum) := by
  induction counts with
  | nil => intro a; simp
  | cons c cs ih =>
      intro a
      rw [List.foldlM_cons]
      rw [mapM_charDigit c.1.data (hdig c (by simp))]
      simp only [Option.pure_def, Option.bind_eq_bind, Option.some_bind]
      have ih2 := ih (fun p hp => hdig p (by simp [hp]))
      simp only [Option.pure_def, Option.bind_eq_bind] at ih2
      rw [ih2]
      simp [add_assoc]

/-- Mapping over an enumerated list equals mapping over its index
range with `getD` access. -/
theorem enum_map_getD {β : Type} (l : List ℚ) (f : ℕ × ℚ → β) :
    l.enum.map f = (List.range l.length).map (fun i => f (i, l.getD i 0)) := by
  apply List.ext_getElem
  · simp
  · intro i h1 h2
    simp only [List.getElem_map, List.getElem_enum, List.getElem_range]
    have hi : i < l.length := by simpa using h1
    rw [List.getD_eq_getElem l 0 hi]

/-- A conditional flatMap is a flatMap over the filtered list. -/
theorem flatMap_ite_filter {α β : Type} (l : List α) (p : α → Prop)
    [DecidablePred p] (f : α → List β) :
    (l.flatMap fun x => if p x then f x else []) =
      (l.filter (fun x => p x)).flatMap f := by
  induction l with
  | nil => rfl
  | cons a t ih =>
      by_cases h : p a
      · simp [List.filter_cons, h, ih]
      · simp [List.filter_cons, h, ih]

theorem dictGet_dictInsert_self {κ α : Type} [DecidableEq κ]
    (d : List (κ × α)) (k : κ) (v : α) :
    dictGet (dictInsert d k v) k = some v := by
  induction d with
  | nil => simp [dictInsert, dictGet]
  | cons p ps ih =>
      rw [dictInsert]
      by_cases h : p.1 = k
      · rw [if_pos h]
        simp [dictGet]
      · rw [if_neg h, dictGet, if_neg h]
        exact ih

theorem dictGet_dictInsert_ne {κ α : Type} [DecidableEq κ]
    (d : List (κ × α)) (k k' : κ) (v : α) (h : k' ≠ k) :
    dictGet (dictInsert d k v) k' = dictGet d k' := by
  induction d with
  | nil =>
      simp only [dictInsert, dictGet]
      rw [if_neg (fun he : k = k' => h he.symm)]
  | cons p ps ih =>
      rw [dictInsert]
      by_cases hp : p.1 = k
      · rw [if_pos hp, dictGet, dictGet]
        have h1 : ¬ (k = k') := fun he => h he.symm
        have h2 : ¬ (p.1 = k') := by rw [hp]; exact h1
        rw [if_neg h1, if_neg h2]
      · rw [if_neg hp, dictGet, dictGet]
        by_cases hk : p.1 = k'
        · rw [if_pos hk, if_pos hk]
        · rw [if_neg hk, if_neg hk]
          exact ih

theorem dictGet_foldl_insert_not_mem {κ α β : Type} [DecidableEq κ]
    (l : List β) (keyf : β → κ) (valf : β → α) (d : List (κ × α)) (k : κ)
    (hk : ∀ x ∈ l, keyf x ≠ k) :
    dictGet (l.foldl (fun dd t => dictInsert dd (keyf t) (valf t)) d) k =
      dictGet d k := by
  induction l generalizing d with
  | nil => rfl
  | cons a t ih =>
      rw [List.foldl_cons]
      rw [ih _ (fun x hx => hk x (by simp [hx]))]
      exact dictGet_dictInsert_ne d (keyf a) k (valf a)
        (fun he => hk a (by simp) he.symm)

/-- Lookup after folding `dictInsert` over entries with pairwise
distinct keys finds each entry's value. -/
theorem dictGet_foldl_insert {κ α β : Type} [DecidableEq κ]
    (l : List β) (keyf : β → κ) (valf : β → α) (d : List (κ × α))
    (hnd : (l.map keyf).Nodup) {x : β} (hx : x ∈ l) :
    dictGet (l.foldl (fun dd t => dictInsert dd (keyf t) (valf t)) d)
        (keyf x) = some (valf x) := by
  induction l generalizing d with
  | nil => cases hx
  | cons a t ih =>
      rw [List.foldl_cons]
      rcases List.mem_cons.mp hx with h | h
      · subst h
        have hk : ∀ y ∈ t, keyf y ≠ keyf x := by
          intro y hy he
          have h1 : keyf x ∉ t.map keyf := (List.nodup_cons.mp hnd).1
          exact h1 (he ▸ List.mem_map_of_mem keyf hy)
        rw [dictGet_foldl_insert_not_mem t keyf valf _ _ hk]
        exact dictGet_dictInsert_self d (keyf x) (valf x)
      · exact ih _ (List.nodup_cons.mp hnd).2 h

theorem linear_foldl_setQuadratic (l : List (String × String × ℚ))
    (mult : ℚ) (qm : QuadSampler) :
    (l.foldl (fun qm t => qm.setQuadratic t.1 t.2.1 (t.2.2 * mult))
        qm).linear = qm.linear := by
  induction l generalizing qm with
  | nil => rfl
  | cons a t ih => rw [List.foldl_cons, ih]; rfl

theorem linear_foldl_setLinear (l : List (String × ℚ)) (mult : ℚ)
    (qm : QuadSampler) :
    (l.foldl (fun qm t => qm.setLinear t.1 (t.2 * mult)) qm).linear =
      l.foldl (fun dd t => dictInsert dd t.1 (t.2 * mult)) qm.linear := by
  induction l generalizing qm with
  | nil => rfl
  | cons a t ih => rw [List.foldl_cons, List.foldl_cons, ih]; rfl

theorem quadratic_foldl_setQuadratic (l : List (String × String × ℚ))
    (mult : ℚ) (qm : QuadSampler) :
    (l.foldl (fun qm t => qm.setQuadratic t.1 t.2.1 (t.2.2 * mult))
        qm).quadratic =
      l.foldl (fun dd t => dictInsert dd (t.1, t.2.1) (t.2.2 * mult))
        qm.quadratic := by
  induction l generalizing qm with
  | nil => rfl
  | cons a t ih => rw [List.foldl_cons, List.foldl_cons, ih]; rfl

/-- Linear objective coefficients land in the parsed model multiplied
by the sense multiplier. -/
theorem parse_objective_linear (model : PModel) (parsed : QuadSampler)
    (b : Bool) (hnd : (model.objLinear.map Prod.fst).Nodup) {nm : String}
    {co : ℚ} (h : (nm, co) ∈ model.objLinear) :
    dictGet (parse_objective model parsed b).linear nm =
      some (co * senseMult model) := by
  unfold parse_objective
  rw [linear_foldl_setQuadratic, linear_foldl_setLinear]
  exact dictGet_foldl_insert model.objLinear Prod.fst
    (fun t => t.2 * senseMult model) _ hnd h

/-- Quadratic objective coefficients land in the parsed model
multiplied by the sense multiplier. -/
theorem parse_objective_quadratic (model : PModel) (parsed : QuadSampler)
    (b : Bool)
    (hnd : (model.objQuad.map (fun t => (t.1, t.2.1))).Nodup)
    {x y : String} {w : ℚ} (h : (x, y, w) ∈ model.objQuad) :
    dictGet (parse_objective model parsed b).quadratic (x, y) =
      some (w * senseMult model) := by
  unfold parse_objective
  rw [quadratic_foldl_setQuadratic]
  simpa using dictGet_foldl_insert model.objQuad
    (fun t => (t.1, t.2.1)) (fun t => t.2.2 * senseMult model) _ hnd h

end QPLEX

namespace QPLEX

/-! Claim theorems. -/

/-- C2 (counterexample): on the tied histogram {"1": 1, "0": 1} the
extractor picks "1" (the first entry in iteration order), not the
lexicographically smallest "0" that the claim demands, so the two
disagree. -/
theorem claim2_counterexample :
    get_solution_from_counts modelOneVar countsTie =
        some ⟨1, [("x", 1)]⟩ ∧
      spec_get_solution_from_counts modelOneVar countsTie =
        some ⟨0, [("x", 0)]⟩ ∧
      get_solution_from_counts modelOneVar countsTie ≠
        spec_get_solution_from_counts modelOneVar countsTie := by
  have hc : get_solution_from_counts modelOneVar countsTie =
      some ⟨0 + ((1 : ℕ) : ℚ) * 1, [("x", 1)]⟩ := rfl
  have hs : spec_get_solution_from_counts modelOneVar countsTie =
      some ⟨0 + ((0 : ℕ) : ℚ) * 1, [("x", 0)]⟩ := rfl
  refine ⟨?_, ?_, ?_⟩
  · rw [hc]; norm_num
  · rw [hs]; norm_num
  · rw [hc, hs]; simp

/-- C2 (amended): the extractor decodes the first histogram entry
attaining the maximal count, in the histogram's iteration order (so it
is a function of the ordered histogram and the model); any entry so
chosen carries the maximal count. -/
theorem claim2_first_max_selection (model : PModel)
    (counts : List (String × ℕ)) :
    get_solution_from_counts model counts =
        solutionFromBest model (firstMaxEntry counts) ∧
      ∀ r, firstMaxEntry counts = some r → r ∈ counts ∧ maxSnd counts ≤ r.2 := by
  constructor
  · rw [get_solution_from_counts, pyMax_eq_firstMax]
  · intro r hr
    refine ⟨List.mem_of_find?_eq_some hr, ?_⟩
    have h2 := List.find?_some hr
    simpa using h2

/-- C2 witness: the amended description evaluated on the tied
histogram. -/
theorem claim2_witness :
    get_solution_from_counts modelOneVar countsTie =
      solutionFromBest modelOneVar (firstMaxEntry countsTie) :=
  (claim2_first_max_selection modelOneVar countsTie).1

/-- C3: `update_params` never mutates the instance (the stored circuit
is the substitution template of every call), so substituting u and then
u again returns the text of a single substitution with u, and
substituting u and then v returns the text of a single substitution
with v. -/
theorem claim3_substitution_composition (a : QAOAAlg) (u v : List String)
    (_hu : u.length = a.num_params) (_hv : v.length = a.num_params) :
    (QAOAAlg.update_params_run (QAOAAlg.update_params_run a u).2 u).1 =
        (QAOAAlg.update_params_run a u).1 ∧
      (QAOAAlg.update_params_run (QAOAAlg.update_params_run a u).2 v).1 =
        (QAOAAlg.update_params_run a v).1 ∧
      (QAOAAlg.update_params_run a u).2 = a :=
  ⟨rfl, rfl, rfl⟩

/-- C3 witness: substitution composition on the concrete 2-parameter
QAOA instance. -/
theorem claim3_witness :
    (QAOAAlg.update_params_run
        (QAOAAlg.update_params_run qaoaSmall ["0.1", "0.2"]).2
        ["0.3", "0.4"]).1 =
      (QAOAAlg.update_params_run qaoaSmall ["0.3", "0.4"]).1 :=
  (claim3_substitution_composition qaoaSmall ["0.1", "0.2"] ["0.3", "0.4"]
    rfl rfl).2.1

set_option maxRecDepth 16384 in
/-- C4 (counterexample): the VQE instance over 2 qubits with 1 layer
expects 6 parameters, yet `update_params` on the 1-element vector
raises nothing and returns a substituted circuit (ry_angle_0 has been
replaced).  Moreover the sequential `str.replace` pass is not
placeholder-exact: on the 11-placeholder instance fed a wrong-length
12-value vector, replacing `ry_angle_1` also rewrites the prefix of
`ry_angle_10`, leaving `ry(1.50)` (params[1] followed by a stray '0')
in the output while params[10] = "7.7" never appears. -/
theorem claim4_counterexample :
    (["0.9"] : List String).length ≠ vqeSmall.num_params ∧
      vqeSmall.update_params ["0.9"] =
        "\n        qreg q[2];\n        creg c[2];\n        ry(0.9) q[0];\nry(ry_angle_1) q[1];\ncx q[0], q[1];\nry(ry_angle_2) q[0];\nry(ry_angle_3) q[1];\ncx q[0], q[1];\nry(ry_angle_4) q[0];\nry(ry_angle_5) q[1];\nmeasure q[0] -> c[0];\nmeasure q[1] -> c[1];\n" ∧
      vqeSmall.update_params ["0.9"] ≠ vqeSmall.ansatz ∧
      paramsTwelve.length ≠ vqeEleven.num_params ∧
      strContains (vqeEleven.update_params paramsTwelve) "ry(1.50)" = true ∧
      strContains (vqeEleven.update_params paramsTwelve) "7.7" = false :=
  ⟨by decide, by rfl, by decide, by decide, by decide, by decide⟩

/-- C4 (amended): only QAOA's `update_params` checks the arity; a
length mismatch there raises the ValueError with this message and
yields no circuit. -/
theorem claim4_qaoa_arity_error (a : QAOAAlg) (params : List String)
    (h : params.length ≠ a.num_params) :
    a.update_params params =
      Except.error ("Expected " ++ toString a.num_params ++
        " parameters, got " ++ toString params.length) := by
  simp [QAOAAlg.update_params, h]

/-- C4 witness: the arity error on the concrete 2-parameter QAOA
instance fed one parameter. -/
theorem claim4_witness :
    qaoaSmall.update_params ["0.1"] =
      Except.error "Expected 2 parameters, got 1" := by
  have h := claim4_qaoa_arity_error qaoaSmall ["0.1"] (by decide)
  simpa using h

/-- C5 (counterexample): the regex `theta(\d+)` carries no word
boundary, so the placeholder inside the identifier `mytheta1` is
rewritten, while the word-boundary substitution the claim describes
leaves the text unchanged. -/
theorem claim5_counterexample :
    replace_params "rz(mytheta1) q[0];" ["0.1", "0.2"] =
        some "rz(my0.2) q[0];" ∧
      spec_replace_params_wb "rz(mytheta1) q[0];" ["0.1", "0.2"] =
        some "rz(mytheta1) q[0];" ∧
      replace_params "rz(mytheta1) q[0];" ["0.1", "0.2"] ≠
        spec_replace_params_wb "rz(mytheta1) q[0];" ["0.1", "0.2"] :=
  ⟨rfl, rfl, by decide⟩

/-- C5 (amended): substitution rewrites every occurrence of theta
followed by digits, even inside a longer identifier (`xtheta1x`), and
the digit run is maximal, so `theta10` is bound to index 10 and not to
index 1 followed by a literal 0. -/
theorem claim5_no_word_boundary (u : List String) (a b : String)
    (h1 : u[1]? = some a) (h10 : u[10]? = some b) :
    replace_params "cx(xtheta1x);rz(theta10);" u =
      some ("cx(x" ++ a ++ "x);rz(" ++ b ++ ");") := by
  simp [replace_params, replaceParamsAux, isThetaAt, digitsToNat, h1, h10,
    List.isPrefixOf]
  apply String.ext
  simp [String.data_append, List.append_assoc]

/-- C5 witness: the amended substitution behavior on a concrete
11-parameter vector. -/
theorem claim5_witness :
    replace_params "cx(xtheta1x);rz(theta10);"
        ["p0", "p1", "p2", "p3", "p4", "p5", "p6", "p7", "p8", "p9", "p10"] =
      some "cx(xp1x);rz(p10);" := by
  have h := claim5_no_word_boundary
    ["p0", "p1", "p2", "p3", "p4", "p5", "p6", "p7", "p8", "p9", "p10"]
    "p1" "p10" rfl rfl
  simpa using h

/-- C9: the energy evaluation returns exactly
(1/shots) · Σ_b counts[b] · qubo_energy(bits b) and bumps the iteration
counter by exactly 1. -/
theorem claim9_energy_formula (counts : List (String × ℕ)) (shots : ℕ)
    (alg : AlgInstance)
    (hdig : ∀ p ∈ counts, ∀ ch ∈ p.1.data, ch.isDigit)
    (_hshots : 0 < shots) :
    calculate_energy counts shots alg =
      some ((1 / (shots : ℚ)) * (counts.map (fun p => (p.2 : ℚ) *
          alg.quboEval (natsToRats (p.1.data.map
            (fun ch => ch.toNat - '0'.toNat))))).sum,
        { alg with iteration := alg.iteration + 1 }) := by
  unfold calculate_energy
  rw [energy_foldlM alg counts hdig 0]
  simp only [Option.bind_eq_bind, Option.some_bind, zero_add]
  rw [one_div, inv_mul_eq_div]
  rfl

/-- C9 witness: on the concrete histogram {"01": 3, "10": 1} with 4
shots and the bit-sum objective, the energy is 1 and the iteration
counter moves from 5 to 6. -/
theorem claim9_witness :
    calculate_energy countsEnergy 4 algEnergy =
      some ((1 : ℚ), { algEnergy with iteration := 6 }) := by
  have h := claim9_energy_formula countsEnergy 4 algEnergy (by decide)
    (by norm_num)
  rw [h]
  have h2 : (countsEnergy.map (fun p => (p.2 : ℚ) *
      algEnergy.quboEval (natsToRats (p.1.data.map
        (fun ch => ch.toNat - '0'.toNat))))).sum =
      (3 : ℚ) * ((0 : ℚ) + ((1 : ℚ) + 0)) + ((1 : ℚ) * ((1 : ℚ) + (0 + 0)) + 0) := by
    rfl
  rw [h2]
  norm_num [algEnergy]

/-- C1 (code bug evaluation): on a model carrying both a cardinality
and an inequality constraint, the inspector produces a ConstraintInfo
of type Multiple (with the component types in its
`additional_constraints` field), yet the factory returns the plain
Standard mixer rather than a Composite: `_get_all_constraints` looks
for `'additional_constraints'` inside `constraint_info.parameters`,
which the inspector never populates. -/
theorem claim1_multiple_gets_standard_mixer :
    (get_model_constraint_info modelMulti).type =
        some ConstraintType.multiple ∧
      (get_model_constraint_info modelMulti).additional_constraints =
        some [ConstraintType.cardinality, ConstraintType.inequality] ∧
      MixerFactory.get_mixer (get_model_constraint_info modelMulti) =
        Mixer.base BaseMixer.standard := by
  refine ⟨by decide, by decide, by decide⟩

/-- C6: a model whose sole constraint is an equality with unit
coefficients over binary variables and a non-negative integer right
side k is classified Cardinality with `cardinality_k = k`; the factory
returns the XY cardinality mixer, whose circuit is the concatenation of
the H;H; CX; Rz; CX; H;H blocks over pairs i < j and contains no rx
gate. -/
theorem claim6_cardinality_selects_xy_mixer
    (m : PModel) (c : Constraint) (k : ℕ)
    (hm : m.constraints = [c])
    (hs : c.sense = ComparisonType.eq)
    (hcoef : ∀ t ∈ c.lhs, t.coef = 1)
    (_hbin : ∀ t ∈ c.lhs, t.var.vtype = VarType.binary)
    (hrhs : c.rhs = RightExpr.num k) :
    get_model_constraint_info m =
        { type := some ConstraintType.cardinality
          parameters :=
            [("cardinality_k", ParamValue.rexpr (RightExpr.num k))]
          additional_constraints := none } ∧
      MixerFactory.get_mixer (get_model_constraint_info m) =
        Mixer.base BaseMixer.cardinality ∧
      ∀ n theta,
        Mixer.generate_circuit
            (MixerFactory.get_mixer (get_model_constraint_info m)) n theta =
          specXYCircuit n theta ∧
        ∀ l ∈ Mixer.generate_circuit
            (MixerFactory.get_mixer (get_model_constraint_info m)) n theta,
          noRxLine l := by
  have hinfo := inspector_single_unit_eq hm hs hcoef hrhs
  have hmix : MixerFactory.get_mixer (get_model_constraint_info m) =
      Mixer.base BaseMixer.cardinality := by
    rw [hinfo]; rfl
  refine ⟨hinfo, hmix, ?_⟩
  intro n theta
  rw [hmix]
  exact ⟨cardinality_mixer_eq_specXY n theta,
         cardinality_mixer_no_rx n theta⟩

/-- C6 witness: the concrete model with constraint x + y = 2 over two
binaries is classified Cardinality with k = 2, gets the XY mixer, and
that mixer's circuit on 2 qubits matches the spec blocks with no rx
line. -/
theorem claim6_witness :
    get_model_constraint_info modelCard =
        { type := some ConstraintType.cardinality
          parameters :=
            [("cardinality_k", ParamValue.rexpr (RightExpr.num 2))]
          additional_constraints := none } ∧
      MixerFactory.get_mixer (get_model_constraint_info modelCard) =
        Mixer.base BaseMixer.cardinality ∧
      Mixer.generate_circuit
          (MixerFactory.get_mixer (get_model_constraint_info modelCard))
          2 "theta1" =
        specXYCircuit 2 "theta1" := by
  have h := claim6_cardinality_selects_xy_mixer modelCard constrCardXY 2
    rfl rfl (by decide) (by decide) rfl
  exact ⟨h.1, h.2.1, (h.2.2 2 "theta1").1⟩

/-- C10: cardinality detection needs only an equality sense, unit
left-hand coefficients and a numeric right side; the variables may be
of any kind and the right side any rational, which is then recorded as
`cardinality_k`. -/
theorem claim10_cardinality_ignores_var_kind_and_sign
    (m : PModel) (c : Constraint) (q : ℚ)
    (hm : m.constraints = [c])
    (hs : c.sense = ComparisonType.eq)
    (hcoef : ∀ t ∈ c.lhs, t.coef = 1)
    (hrhs : c.rhs = RightExpr.num q) :
    get_model_constraint_info m =
      { type := some ConstraintType.cardinality
        parameters := [("cardinality_k", ParamValue.rexpr (RightExpr.num q))]
        additional_constraints := none } :=
  inspector_single_unit_eq hm hs hcoef hrhs

/-- C10 witness: the equality u + v = -3 over integer variables is
classified Cardinality with cardinality_k = -3. -/
theorem claim10_witness :
    get_model_constraint_info modelIntNeg =
      { type := some ConstraintType.cardinality
        parameters :=
          [("cardinality_k", ParamValue.rexpr (RightExpr.num (-3)))]
        additional_constraints := none } :=
  claim10_cardinality_ignores_var_kind_and_sign modelIntNeg constrIntNeg
    (-3) rfl rfl (by decide) rfl

end QPLEX

namespace QPLEX

/-- C7: the QAOA compiler's emitted line sequence is exactly the
circuit the specification describes: theta0..theta(2p-1) declarations,
register declarations, a Hadamard on every qubit, per layer the cost
rotations rz(theta_2l * (h_i + Σ_j J_ij)) for every qubit, the
CX;Rz(theta_2l * J_ij/2);CX blocks for pairs i < j with J_ij ≠ 0 and
the mixer on theta_(2l+1), ending with one measurement per qubit. -/
theorem claim7_qaoa_circuit_structure (fmt : ℚ → String) (q : QUBOArrays)
    (p : ℕ) (mixer : Mixer) (hlin : q.linear.length = q.n) :
    qaoaCircuitLines fmt q p mixer = specQAOACircuit fmt q p mixer := by
  have hlayers :
      (List.range p).flatMap (fun idx =>
        (q.linear.enum.map (fun iw =>
          "rz(" ++ ("theta" ++ toString (2 * idx)) ++ " * "
            ++ fmt (iw.2 + (q.row iw.1).sum)
            ++ ") q[" ++ toString iw.1 ++ "];"))
        ++ ((List.range q.n).flatMap (fun i =>
              (List.range' (i + 1) (q.n - (i + 1))).flatMap (fun j =>
                if q.entry i j ≠ 0 then
                  ["cx q[" ++ toString i ++ "], q[" ++ toString j ++ "];",
                   "rz(" ++ ("theta" ++ toString (2 * idx)) ++ " * "
                     ++ fmt (q.entry i j / 2)
                     ++ ") q[" ++ toString j ++ "];",
                   "cx q[" ++ toString i ++ "], q[" ++ toString j ++ "];"]
                else [])))
        ++ mixer.generate_circuit q.n ("theta" ++ toString (2 * idx + 1))) =
      (List.range p).flatMap (fun l =>
        specQAOACostRz fmt q l ++ specQAOACouplings fmt q l
          ++ mixer.generate_circuit q.n ("theta" ++ toString (2 * l + 1))) := by
    refine List.flatMap_congr ?_
    intro idx _
    have hcost : q.linear.enum.map (fun iw =>
        "rz(" ++ ("theta" ++ toString (2 * idx)) ++ " * "
          ++ fmt (iw.2 + (q.row iw.1).sum)
          ++ ") q[" ++ toString iw.1 ++ "];") = specQAOACostRz fmt q idx := by
      unfold specQAOACostRz
      rw [enum_map_getD q.linear, hlin]
    have hpair : (List.range q.n).flatMap (fun i =>
          (List.range' (i + 1) (q.n - (i + 1))).flatMap (fun j =>
            if q.entry i j ≠ 0 then
              ["cx q[" ++ toString i ++ "], q[" ++ toString j ++ "];",
               "rz(" ++ ("theta" ++ toString (2 * idx)) ++ " * "
                 ++ fmt (q.entry i j / 2)
                 ++ ") q[" ++ toString j ++ "];",
               "cx q[" ++ toString i ++ "], q[" ++ toString j ++ "];"]
            else [])) = specQAOACouplings fmt q idx := by
      unfold specQAOACouplings specQAOAPairBlock
      refine List.flatMap_congr ?_
      intro i _
      rw [flatMap_ite_filter, ← filter_lt_range]
    rw [hcost, hpair]
  unfold qaoaCircuitLines specQAOACircuit specQAOADecls specQAOARegs
    specQAOAHadamards specQAOAMeasures
  rw [hlayers]

/-- C7 witness: on the concrete 2-variable QUBO with p = 1 and the
standard mixer, the emitted lines match the spec circuit. -/
theorem claim7_witness :
    qaoaCircuitLines (fun x : ℚ => toString x) quboSmall 1
        (Mixer.base BaseMixer.standard) =
      specQAOACircuit (fun x : ℚ => toString x) quboSmall 1
        (Mixer.base BaseMixer.standard) :=
  claim7_qaoa_circuit_structure (fun x : ℚ => toString x) quboSmall 1
    (Mixer.base BaseMixer.standard) rfl

/-- C8: the annealing translation yields a CQM exactly when constraints
exist, a DQM when there are none but an integer variable is present,
and a BQM otherwise; and every linear and quadratic objective
coefficient reaches the sampler multiplied by -1 under a max sense
(by 1 under min). -/
theorem claim8_annealing_translation (model : PModel)
    (hnd : (model.objLinear.map Prod.fst).Nodup)
    (hqnd : (model.objQuad.map (fun t => (t.1, t.2.1))).Nodup) :
    ((∃ obj cs, (parse_input model).1 = ParsedModel.cqm obj cs) ↔
        model.constraints ≠ []) ∧
      ((∃ qm, (parse_input model).1 = ParsedModel.dqm qm) ↔
        (model.constraints = [] ∧
          model.vars.any (fun v => v.vtype = VarType.integer) = true)) ∧
      ((∃ qm, (parse_input model).1 = ParsedModel.bqm qm) ↔
        (model.constraints = [] ∧
          model.vars.any (fun v => v.vtype = VarType.integer) = false)) ∧
      (model.sense = Sense.maximize → senseMult model = -1) ∧
      (model.sense = Sense.minimize → senseMult model = 1) ∧
      (∀ nm co, (nm, co) ∈ model.objLinear →
        dictGet ((parse_input model).1.objectiveQM).linear nm =
          some (co * senseMult model)) ∧
      (∀ x y w, (x, y, w) ∈ model.objQuad →
        dictGet ((parse_input model).1.objectiveQM).quadratic (x, y) =
          some (w * senseMult model)) := by
  have hsmax : model.sense = Sense.maximize → senseMult model = -1 := by
    intro h
    simp [senseMult, h]
  have hsmin : model.sense = Sense.minimize → senseMult model = 1 := by
    intro h
    simp [senseMult, h]
  unfold parse_input
  by_cases hc : model.constraints.length > 0
  · have hne : model.constraints ≠ [] := by
      intro he
      rw [he] at hc
      simp at hc
    rw [if_pos hc]
    refine ⟨⟨fun _ => hne, fun _ => ⟨_, _, rfl⟩⟩, by simp [hne], by simp [hne],
      hsmax, hsmin, ?_, ?_⟩
    · intro nm co h
      simpa [ParsedModel.objectiveQM] using
        parse_objective_linear model QuadSampler.empty false hnd h
    · intro x y w h
      simpa [ParsedModel.objectiveQM] using
        parse_objective_quadratic model QuadSampler.empty false hqnd h
  · have he : model.constraints = [] := by
      cases hmo : model.constraints with
      | nil => rfl
      | cons a t => rw [hmo] at hc; simp at hc
    rw [if_neg hc]
    by_cases hi : model.vars.any (fun v => v.vtype = VarType.integer)
    · rw [if_pos hi]
      refine ⟨by simp [he], by simp [he, hi], by simp [hi],
        hsmax, hsmin, ?_, ?_⟩
      · intro nm co h
        simpa [ParsedModel.objectiveQM] using
          parse_objective_linear model QuadSampler.empty false hnd h
      · intro x y w h
        simpa [ParsedModel.objectiveQM] using
          parse_objective_quadratic model QuadSampler.empty false hqnd h
    · rw [if_neg hi]
      refine ⟨by simp [he], by simp [hi], by simp [he, hi],
        hsmax, hsmin, ?_, ?_⟩
      · intro nm co h
        simpa [ParsedModel.objectiveQM] using
          parse_objective_linear model QuadSampler.empty true hnd h
      · intro x y w h
        simpa [ParsedModel.objectiveQM] using
          parse_objective_quadratic model QuadSampler.empty true hqnd h

/-- C8 witness: the constrained maximization model translates to a CQM
and its objective coefficient on x arrives negated. -/
theorem claim8_witness :
    (∃ obj cs, (parse_input modelMaxCqm).1 = ParsedModel.cqm obj cs) ∧
      senseMult modelMaxCqm = -1 ∧
      dictGet ((parse_input modelMaxCqm).1.objectiveQM).linear "x" =
        some ((2 : ℚ) * senseMult modelMaxCqm) := by
  have h := claim8_annealing_translation modelMaxCqm (by decide) (by decide)
  refine ⟨h.1.mpr (by decide), h.2.2.2.1 rfl, ?_⟩
  exact h.2.2.2.2.2.1 "x" 2 (by decide)

end QPLEX
